import Mathlib

/-!
Snape: the snippet repository and the selection / filter state machine.

A shallow embedding of `snippets.go` (name derivation, `resolveDuplicateNames`,
`LoadSnippets`) and of the keyboard / filter handlers of `ui.go`
(`getIndexChar`, `buildIndexMap`, `selectSnippet`, `handleNavigation`,
`enterFilterMode`, `exitFilterMode`, `addToFilter`, `handleBackspace`,
`applyFilter` and the two canvas callbacks installed by
`setupKeyboardShortcuts`).

Conventions of the embedding:

* a Go `string` is its sequence of bytes (`GoString`), each byte a natural
  number below 256; `len`, slicing and `+` act on bytes as in Go;
* Go `int` and `rune` values are integers; the conversion `rune(x)` is the
  explicit wrap `toInt32`;
* a Go `map` is a key-unique association list (`GoMap`);
* the toolkit (window, list widget, labels) is not part of the state; what a
  handler asks of the outside world is returned as a list of `Effect`s;
* the two library routines whose bodies depend on tables that are not part
  of the repository are parameters: `unicodeLower` stands for
  `strings.Map(unicode.ToLower, s)` (the non-ASCII path of `strings.ToLower`)
  and `sortSlice` for `sort.Slice`. In the concrete evaluations every string
  that reaches `strings.ToLower` is ASCII, unless said otherwise, so the value
  passed for `unicodeLower` there is never consulted.
-/

namespace Snape

/-! ## Go strings -/

/-- A Go string: its bytes, in order. -/
abbrev GoString := List Nat

/-- The conversion `rune(x)` of an `int`: two's complement wrap to 32 bits. -/
def toInt32 (x : Int) : Int := (x + 2147483648) % 4294967296 - 2147483648

/-- The conversion `string(r)` of a rune: the UTF-8 encoding of `r`, and the
encoding of U+FFFD when `r` is not a valid code point. -/
def runeToString (r : Int) : GoString :=
  if r < 0 ∨ 1114111 < r ∨ (55296 ≤ r ∧ r ≤ 57343) then [239, 191, 189]
  else
    let n := r.toNat
    if n < 128 then [n]
    else if n < 2048 then [192 + n / 64, 128 + n % 64]
    else if n < 65536 then [224 + n / 4096, 128 + (n / 64) % 64, 128 + n % 64]
    else [240 + n / 262144, 128 + (n / 4096) % 64, 128 + (n / 64) % 64, 128 + n % 64]

/-- The bytes of a string literal of the source (UTF-8). -/
def lit (s : String) : GoString := s.data.flatMap (fun c => runeToString (c.toNat : Int))

/-- The function `strings.HasPrefix`. -/
def HasPrefix (s pre : GoString) : Bool := pre.isPrefixOf s

/-- The function `strings.HasSuffix`. -/
def HasSuffix (s suffix : GoString) : Bool := suffix.isSuffixOf s

/-- The function `strings.TrimSuffix`: `s[:len(s)-len(suffix)]` when `s` ends in
`suffix`, else `s`. -/
def TrimSuffix (s suffix : GoString) : GoString :=
  if HasSuffix s suffix then s.take (s.length - suffix.length) else s

/-- The function `strings.Contains`: some position of `s` starts a copy of
`substr`. -/
def Contains : GoString → GoString → Bool
  | [], substr => substr.isPrefixOf []
  | c :: s, substr => substr.isPrefixOf (c :: s) || Contains s substr

/-- One byte of the ASCII path of `strings.ToLower`. -/
def lowerByte (c : Nat) : Nat := if 65 ≤ c ∧ c ≤ 90 then c + 32 else c

/-- The function `strings.ToLower`: ASCII-only strings are lower-cased byte by
byte (returned as they are when they hold no upper-case letter); any other
string is handed to `unicodeLower`. -/
def ToLower (unicodeLower : GoString → GoString) (s : GoString) : GoString :=
  let isASCII := s.all (fun c => decide (c < 128))
  let hasUpper := s.any (fun c => decide (65 ≤ c ∧ c ≤ 90))
  if isASCII then
    if !hasUpper then s else s.map lowerByte
  else unicodeLower s

/-- The loop of `filepath.Ext` on the reversed path: scanning from the last
byte towards the first, stop at a path separator, and at the first dot return
the suffix that starts there. `seen` holds the bytes already passed, in path
order. -/
def extScan : List Nat → GoString → GoString
  | [], _ => []
  | c :: rest, seen =>
    if c = 47 then []
    else if c = 46 then c :: seen
    else extScan rest (c :: seen)

/-- The function `filepath.Ext` (with `/` as the path separator): the suffix
of `path` beginning at the final dot of its final element, empty when that
element has no dot. -/
def Ext (path : GoString) : GoString := extScan path.reverse []

/-! ## Go maps -/

/-- A Go map: an association list in which no key occurs twice. -/
structure GoMap (κ : Type) (ν : Type) where
  entries : List (κ × ν)
deriving DecidableEq

namespace GoMap

variable {κ ν : Type} [DecidableEq κ]

/-- The value `make(map[K]V)`. -/
def empty : GoMap κ ν := ⟨[]⟩

/-- The two-valued lookup `v, ok := m[k]`. -/
def lookup (m : GoMap κ ν) (k : κ) : Option ν :=
  (m.entries.find? (fun p => decide (p.1 = k))).map Prod.snd

/-- The assignment `m[k] = v`: any earlier binding of `k` is replaced. -/
def store (m : GoMap κ ν) (k : κ) (v : ν) : GoMap κ ν :=
  ⟨(k, v) :: m.entries.filter (fun p => decide (p.1 ≠ k))⟩

/-- The builtin `len(m)`. -/
def len (m : GoMap κ ν) : Nat := m.entries.length

/-- The keys of the map. -/
def keys (m : GoMap κ ν) : List κ := m.entries.map Prod.fst

end GoMap

/-! ## snippets.go -/

/-- The struct `Snippet`. -/
structure Snippet where
  Name : GoString
  DisplayName : GoString
  Content : GoString
  Path : GoString
deriving DecidableEq

/-- One call of the `filepath.WalkDir` callback: the path and directory entry
it is given, the error it is given (`walkErr`), and what `os.ReadFile(path)`
yields (`none` for a read error). -/
structure DirEntry where
  path : GoString
  name : GoString
  isDir : Bool
  walkErr : Bool
  content : Option GoString
deriving DecidableEq

/-- The callback given to `filepath.WalkDir` in `LoadSnippets`, run over the
successive entries; `none` is a returned error, which aborts the walk. -/
def walkSnippets : List DirEntry → List Snippet → Option (List Snippet)
  | [], snippets => some snippets
  | d :: rest, snippets =>
    if d.walkErr then none
    else if d.isDir then walkSnippets rest snippets
    else if HasPrefix d.name (lit ".") then walkSnippets rest snippets
    else
      match d.content with
      | none => none
      | some content =>
        let name := TrimSuffix d.name (Ext d.name)
        let snippet : Snippet :=
          { Name := name, DisplayName := name, Content := content, Path := d.path }
        walkSnippets rest (snippets ++ [snippet])

/-- The first loop of `resolveDuplicateNames`: `nameCount[snippet.Name]++`. -/
def countNames (snippets : List Snippet) : GoMap GoString Int :=
  snippets.foldl
    (fun nameCount snippet =>
      nameCount.store snippet.Name ((nameCount.lookup snippet.Name).getD 0 + 1))
    GoMap.empty

/-- The body of the second loop of `resolveDuplicateNames` at index `i`: the
snippet read at `i`, and the assignment to `snippets[i].DisplayName` when its
name was counted more than once. -/
def resolveStep (nameCount : GoMap GoString Int) (snippets : List Snippet) (i : Nat) :
    List Snippet :=
  match snippets[i]? with
  | none => snippets
  | some snippet =>
    if (nameCount.lookup snippet.Name).getD 0 > 1 then
      let ext := Ext snippet.Path
      snippets.set i { snippet with DisplayName := snippet.Name ++ ext }
    else snippets

/-- The method `resolveDuplicateNames`: count the names, then run the second
loop over the indices `0 .. len-1`. -/
def resolveDuplicateNames (snippets : List Snippet) : List Snippet :=
  let nameCount := countNames snippets
  (List.range snippets.length).foldl (resolveStep nameCount) snippets

/-- The comparison given to `sort.Slice`: lower-cased names, compared as Go
compares strings (bytewise, lexicographically). -/
def nameLess (unicodeLower : GoString → GoString) (a b : Snippet) : Bool :=
  decide (ToLower unicodeLower a.Name < ToLower unicodeLower b.Name)

/-- The method `LoadSnippets` on the directory `snippetsDir` whose walk yields
`walk`: `none` is a returned error, `some` the snippets stored in the manager. -/
def LoadSnippets (unicodeLower : GoString → GoString)
    (sortSlice : (Snippet → Snippet → Bool) → List Snippet → List Snippet)
    (snippetsDir : GoString) (walk : List DirEntry) : Option (List Snippet) :=
  if snippetsDir = [] then some []
  else
    match walkSnippets walk [] with
    | none => none
    | some snippets =>
      let snippets := sortSlice (nameLess unicodeLower) snippets
      some (resolveDuplicateNames snippets)

/-! ## ui.go -/

/-- What a handler asks of the outside world: a call of the selection callback
`onSnippetSelected`, `app.Quit()`, or the about window. -/
inductive Effect where
  | selected (snippet : Snippet)
  | quit
  | about
deriving DecidableEq

/-- The fields of the struct `UI` that the handlers read and write. The
callback field records whether `onSnippetSelected` is non-nil. -/
structure UI where
  onSnippetSelected : Bool
  currentSnippets : List Snippet
  allSnippets : List Snippet
  selectedIndex : Int
  programmaticSelection : Bool
  indexMap : GoMap Int Int
  filterText : GoString
  isFilterMode : Bool
deriving DecidableEq

/-- The key names the typed-key callback distinguishes. -/
inductive Key where
  | Up | Down | Return | Enter | Escape | Backspace | Other
deriving DecidableEq

/-- The method `getIndexChar`. -/
def getIndexChar (index : Int) : Int :=
  if index < 26 then toInt32 (97 + index)
  else if index < 52 then toInt32 (65 + (index - 26))
  else toInt32 (97 + Int.tmod index 26)

/-- The loop of `buildIndexMap` over `i = 0 .. n-1`, starting from a fresh map. -/
def indexMapOf (n : Nat) : GoMap Int Int :=
  (List.range n).foldl (fun m (i : Nat) => m.store (getIndexChar (i : Int)) (i : Int)) GoMap.empty

/-- The method `buildIndexMap`. -/
def buildIndexMap (ui : UI) : UI :=
  { ui with indexMap := indexMapOf ui.currentSnippets.length }

/-- The method `selectSnippet`. -/
def selectSnippet (ui : UI) : UI × List Effect :=
  if h : 0 ≤ ui.selectedIndex ∧ ui.selectedIndex < (ui.currentSnippets.length : Int) then
    let snippet := ui.currentSnippets.get ⟨ui.selectedIndex.toNat, by omega⟩
    (ui, (if ui.onSnippetSelected then [Effect.selected snippet] else []) ++ [Effect.quit])
  else (ui, [])

/-- The callback `list.OnSelected`. -/
def onSelected (ui : UI) (id : Int) : UI × List Effect :=
  let ui := { ui with selectedIndex := id }
  if !ui.programmaticSelection then selectSnippet ui else (ui, [])

/-- The pattern `programmaticSelection = true; list.Select(id);
programmaticSelection = false`: the widget may run `OnSelected(id)`, which
under the flag only assigns `selectedIndex`. Every call site passes the
current `selectedIndex`, so the assignment is the same whether or not the
widget runs it. -/
def programmaticSelect (ui : UI) (id : Int) : UI :=
  let ui := { ui with programmaticSelection := true }
  let ui := (onSelected ui id).1
  { ui with programmaticSelection := false }

/-- The method `createSnippetList`. -/
def createSnippetList (ui : UI) (snippets : List Snippet) : UI :=
  if snippets.length = 0 then ui
  else
    let ui := { ui with allSnippets := snippets, currentSnippets := snippets,
                        selectedIndex := 0, isFilterMode := false, filterText := [] }
    let ui := buildIndexMap ui
    if ui.currentSnippets.length > 0 then programmaticSelect ui 0 else ui

/-- The method `handleNavigation`. -/
def handleNavigation (ui : UI) (key : Key) : UI :=
  match key with
  | Key.Up =>
    if ui.selectedIndex > 0 then
      let ui := { ui with selectedIndex := ui.selectedIndex - 1 }
      programmaticSelect ui ui.selectedIndex
    else ui
  | Key.Down =>
    if ui.selectedIndex < (ui.currentSnippets.length : Int) - 1 then
      let ui := { ui with selectedIndex := ui.selectedIndex + 1 }
      programmaticSelect ui ui.selectedIndex
    else ui
  | _ => ui

/-- The method `enterFilterMode`. -/
def enterFilterMode (ui : UI) : UI :=
  { ui with isFilterMode := true, filterText := [] }

/-- The method `exitFilterMode`. -/
def exitFilterMode (ui : UI) : UI :=
  let ui := { ui with isFilterMode := false, filterText := [],
                      currentSnippets := ui.allSnippets, selectedIndex := 0 }
  let ui := buildIndexMap ui
  if ui.currentSnippets.length > 0 then programmaticSelect ui 0 else ui

/-- The test of the loop of `applyFilter` on one snippet. -/
def matchesFilter (unicodeLower : GoString → GoString) (filterLower : GoString)
    (snippet : Snippet) : Bool :=
  Contains (ToLower unicodeLower snippet.DisplayName) filterLower ||
    Contains (ToLower unicodeLower snippet.Content) filterLower

/-- The method `applyFilter`. -/
def applyFilter (unicodeLower : GoString → GoString) (ui : UI) : UI :=
  let ui :=
    if ui.filterText = [] then { ui with currentSnippets := ui.allSnippets }
    else
      let filterLower := ToLower unicodeLower ui.filterText
      let current := ui.allSnippets.foldl
        (fun current snippet =>
          if matchesFilter unicodeLower filterLower snippet then current ++ [snippet]
          else current)
        []
      { ui with currentSnippets := current }
  let ui := { ui with selectedIndex := 0 }
  let ui := buildIndexMap ui
  if ui.currentSnippets.length > 0 then programmaticSelect ui 0 else ui

/-- The method `addToFilter`. -/
def addToFilter (unicodeLower : GoString → GoString) (ui : UI) (r : Int) : UI :=
  let ui := { ui with filterText := ui.filterText ++ runeToString r }
  applyFilter unicodeLower ui

/-- The method `handleBackspace`: the slice `filterText[:len(filterText)-1]`
drops the last byte. -/
def handleBackspace (unicodeLower : GoString → GoString) (ui : UI) : UI :=
  if ui.filterText.length > 0 then
    let ui := { ui with filterText := ui.filterText.take (ui.filterText.length - 1) }
    applyFilter unicodeLower ui
  else ui

/-- The callback given to `SetOnTypedKey`. -/
def onTypedKey (unicodeLower : GoString → GoString) (ui : UI) (key : Key) : UI × List Effect :=
  if ui.isFilterMode then
    match key with
    | Key.Up | Key.Down => (handleNavigation ui key, [])
    | Key.Return | Key.Enter => selectSnippet ui
    | Key.Escape => (exitFilterMode ui, [])
    | Key.Backspace => (handleBackspace unicodeLower ui, [])
    | Key.Other => (ui, [])
  else
    match key with
    | Key.Up | Key.Down => (handleNavigation ui key, [])
    | Key.Return | Key.Enter => selectSnippet ui
    | Key.Escape => (ui, [Effect.quit])
    | _ => (ui, [])

/-- The callback given to `SetOnTypedRune`. -/
def onTypedRune (unicodeLower : GoString → GoString) (ui : UI) (r : Int) : UI × List Effect :=
  if ui.isFilterMode then (addToFilter unicodeLower ui r, [])
  else if r = 47 then (enterFilterMode ui, [])
  else if r = 63 then (ui, [Effect.about])
  else
    match ui.indexMap.lookup r with
    | some index => selectSnippet { ui with selectedIndex := index }
    | none => (ui, [])

/-- The states the session can be in: the one `createSnippetList` sets up on a
non-empty list, and every state a handler or callback produces from one of
them. A click on the list reports a row of the visible list. -/
inductive Reachable (unicodeLower : GoString → GoString) : UI → Prop where
  | init (ui : UI) (snippets : List Snippet) (h : snippets ≠ []) :
      Reachable unicodeLower (createSnippetList ui snippets)
  | navigation {ui : UI} (key : Key) :
      Reachable unicodeLower ui → Reachable unicodeLower (handleNavigation ui key)
  | enterFilter {ui : UI} :
      Reachable unicodeLower ui → Reachable unicodeLower (enterFilterMode ui)
  | addFilter {ui : UI} (r : Int) :
      Reachable unicodeLower ui → Reachable unicodeLower (addToFilter unicodeLower ui r)
  | backspace {ui : UI} :
      Reachable unicodeLower ui → Reachable unicodeLower (handleBackspace unicodeLower ui)
  | exitFilter {ui : UI} :
      Reachable unicodeLower ui → Reachable unicodeLower (exitFilterMode ui)
  | typedKey {ui : UI} (key : Key) :
      Reachable unicodeLower ui → Reachable unicodeLower (onTypedKey unicodeLower ui key).1
  | typedRune {ui : UI} (r : Int) :
      Reachable unicodeLower ui → Reachable unicodeLower (onTypedRune unicodeLower ui r).1
  | click {ui : UI} (id : Int) (h0 : 0 ≤ id) (h1 : id < (ui.currentSnippets.length : Int)) :
      Reachable unicodeLower ui → Reachable unicodeLower (onSelected ui id).1

/-! ## Concrete data used in the examples -/

/-- A snippet named `name` with no content, whose display name is its name. -/
def plain (name : String) : Snippet :=
  { Name := lit name, DisplayName := lit name, Content := [], Path := [] }

/-- A regular, readable file `name` of the directory `/d`. -/
def file (name : String) : DirEntry :=
  { path := lit "/d/" ++ lit name, name := lit name, isDir := false, walkErr := false,
    content := some [] }

/-- A state showing `snippets` unfiltered, with the callback installed. -/
def shown (snippets : List Snippet) : UI :=
  createSnippetList
    { onSnippetSelected := true, currentSnippets := [], allSnippets := [], selectedIndex := 0,
      programmaticSelection := false, indexMap := GoMap.empty, filterText := [],
      isFilterMode := false }
    snippets

/-- A state in Filter mode over `snippets` whose filter text is `f`. -/
def filtering (snippets : List Snippet) (f : String) : UI :=
  { shown snippets with isFilterMode := true, filterText := lit f }

/-- The visible list `applyFilter` leaves, as a function of the state it starts from: all
snippets for an empty filter text, else those passing the test of the loop. -/
def visibleOf (unicodeLower : GoString → GoString) (ui : UI) : List Snippet :=
  if ui.filterText = [] then ui.allSnippets
  else ui.allSnippets.filter (matchesFilter unicodeLower (ToLower unicodeLower ui.filterText))

/-- The invariant of the session: the index map is the one built for the visible list, and
the cursor is a row of the visible list, or 0 when the list is empty. -/
def Consistent (ui : UI) : Prop :=
  ui.indexMap = indexMapOf ui.currentSnippets.length ∧
    0 ≤ ui.selectedIndex ∧
    (ui.selectedIndex < (ui.currentSnippets.length : Int) ∨ ui.selectedIndex = 0)

/-- The renaming rule in words: a snippet whose name occurs more than once among `names`
gets the display name `Name + filepath.Ext(Path)`; any other snippet is left as it is. -/
def rename (names : List GoString) (s : Snippet) : Snippet :=
  if 1 < names.count s.Name then { s with DisplayName := s.Name ++ Ext s.Path } else s

/-- The inner loop of the insertion sort `sort.Slice` runs on a short slice
(`for j := i; j > a && less(j, j-1); j-- { swap(j, j-1) }`): the element `x` at index `i`
moves left past every predecessor it is less than. `sortedRev` is the sorted part before
`i`, last element first; so is the result. -/
def insertLeft (less : Snippet → Snippet → Bool) (x : Snippet) : List Snippet → List Snippet
  | [] => [x]
  | y :: sortedRev =>
    if less x y then y :: insertLeft less x sortedRev else x :: y :: sortedRev

/-- The insertion sort `sort.Slice` runs on a slice of fewer than 12 elements: the elements
are taken from left to right and each is moved left into the sorted part. Equal elements
keep their order. -/
def insertionSortSlice (less : Snippet → Snippet → Bool) (snippets : List Snippet) :
    List Snippet :=
  (snippets.foldl (fun sortedRev x => insertLeft less x sortedRev) []).reverse

/-- What `strings.Map(unicode.ToLower, s)` returns on the non-ASCII strings met when the
rune U+00E9 is typed and half deleted: the lone byte 0xC3 is invalid UTF-8 and is replaced by
the encoding of U+FFFD; a string without upper-case letters is returned as it is. -/
def lowerSample (s : GoString) : GoString := if s = [195] then [239, 191, 189] else s

/-- Two bytes are the same up to the case of ASCII letters: they are equal, or one is an
upper-case letter `A..Z` and the other is the lower-case letter 32 above it. -/
def sameCase (a b : Nat) : Prop :=
  a = b ∨ (65 ≤ a ∧ a ≤ 90 ∧ b = a + 32) ∨ (65 ≤ b ∧ b ≤ 90 ∧ a = b + 32)

instance sameCaseDecidable (a b : Nat) : Decidable (sameCase a b) := by
  unfold sameCase
  infer_instance

/-! ## Lemmas on maps -/

namespace GoMap

variable {κ ν : Type} [DecidableEq κ]

theorem lookup_empty (k : κ) : (empty : GoMap κ ν).lookup k = none := rfl

theorem find_filter_ne (l : List (κ × ν)) (k k' : κ) (h : k' ≠ k) :
    (l.filter (fun p => decide (p.1 ≠ k))).find? (fun p => decide (p.1 = k')) =
      l.find? (fun p => decide (p.1 = k')) := by
  induction l with
  | nil => rfl
  | cons p l ih =>
    by_cases hp : p.1 = k
    · have hk : ¬ p.1 = k' := fun e => h (e.symm.trans hp)
      have h1 : decide (p.1 ≠ k) = false := by simp [hp]
      have h2 : decide (p.1 = k') = false := by simp [hk]
      rw [List.filter_cons, h1, List.find?_cons, h2]
      exact ih
    · have h1 : decide (p.1 ≠ k) = true := by simp [hp]
      rw [List.filter_cons, h1]
      simp only [if_true, List.find?_cons]
      rw [ih]

theorem lookup_store (m : GoMap κ ν) (k : κ) (v : ν) (k' : κ) :
    (m.store k v).lookup k' = if k' = k then some v else m.lookup k' := by
  unfold lookup store
  by_cases h : k' = k
  · subst h
    simp [List.find?_cons]
  · have h' : decide (k = k') = false := by
      simp only [decide_eq_false_iff_not]
      exact fun e => h e.symm
    simp only [List.find?_cons, h, h', if_false]
    rw [find_filter_ne _ _ _ h]

theorem lookup_eq_none_iff (m : GoMap κ ν) (k : κ) :
    m.lookup k = none ↔ ∀ p ∈ m.entries, p.1 ≠ k := by
  unfold lookup
  rw [Option.map_eq_none', List.find?_eq_none]
  constructor
  · intro h p hp
    simpa using h p hp
  · intro h p hp
    simpa using h p hp

theorem len_store_of_lookup_none (m : GoMap κ ν) (k : κ) (v : ν) (h : m.lookup k = none) :
    (m.store k v).len = m.len + 1 := by
  rw [lookup_eq_none_iff] at h
  unfold store len
  have : m.entries.filter (fun p => decide (p.1 ≠ k)) = m.entries := by
    rw [List.filter_eq_self]
    intro p hp
    simpa using h p hp
  rw [this]
  rfl

theorem keys_store_nodup (m : GoMap κ ν) (k : κ) (v : ν) (h : m.keys.Nodup) :
    (m.store k v).keys.Nodup := by
  unfold keys store
  rw [List.map_cons, List.nodup_cons]
  constructor
  · intro hk
    obtain ⟨p, hp, hpk⟩ := List.mem_map.mp hk
    have := (List.mem_filter.mp hp).2
    simp at this
    exact this hpk
  · exact h.sublist ((List.filter_sublist _).map _)

end GoMap
/-! ## Index letters and the index map -/

theorem getIndexChar_lt_52 (i : Nat) (h : i < 52) :
    getIndexChar (i : Int) = if i < 26 then 97 + (i : Int) else 39 + (i : Int) := by
  unfold getIndexChar toInt32
  split_ifs <;> omega

theorem getIndexChar_ge_52 (i : Nat) (h : 52 ≤ i) :
    getIndexChar (i : Int) = 97 + ((i % 26 : Nat) : Int) := by
  unfold getIndexChar toInt32
  have ht : Int.tmod (i : Int) 26 = ((i % 26 : Nat) : Int) := by
    rw [Int.tmod_eq_emod (by omega) (by omega)]
    omega
  rw [ht]
  split_ifs <;> omega

theorem getIndexChar_letter (i : Nat) :
    (97 ≤ getIndexChar (i : Int) ∧ getIndexChar (i : Int) ≤ 122) ∨
      (65 ≤ getIndexChar (i : Int) ∧ getIndexChar (i : Int) ≤ 90) := by
  by_cases h : i < 52
  · rw [getIndexChar_lt_52 i h]
    split_ifs <;> omega
  · rw [getIndexChar_ge_52 i (by omega)]
    omega

theorem getIndexChar_injOn (i j : Nat) (hi : i < 52) (hj : j < 52)
    (h : getIndexChar (i : Int) = getIndexChar (j : Int)) : i = j := by
  rw [getIndexChar_lt_52 i hi, getIndexChar_lt_52 j hj] at h
  split_ifs at h <;> omega

theorem indexMapOf_succ (n : Nat) :
    indexMapOf (n + 1) = (indexMapOf n).store (getIndexChar (n : Int)) (n : Int) := by
  unfold indexMapOf
  rw [List.range_succ, List.foldl_append]
  rfl

/-- The binding of a rune in the map built for `n` rows: none when no row
below `n` carries the rune, and otherwise the last such row. -/
theorem lookup_indexMapOf (n : Nat) (c : Int) :
    ((indexMapOf n).lookup c = none ∧ ∀ j : Nat, j < n → getIndexChar (j : Int) ≠ c) ∨
      ∃ i : Nat, (indexMapOf n).lookup c = some (i : Int) ∧ i < n ∧
        getIndexChar (i : Int) = c ∧ ∀ j : Nat, j < n → getIndexChar (j : Int) = c → j ≤ i := by
  induction n with
  | zero =>
    left
    exact ⟨rfl, fun j hj => absurd hj (Nat.not_lt_zero j)⟩
  | succ n ih =>
    rw [indexMapOf_succ, GoMap.lookup_store]
    by_cases hc : c = getIndexChar (n : Int)
    · right
      refine ⟨n, by rw [if_pos hc], Nat.lt_succ_self n, hc.symm, fun j hj _ => by omega⟩
    · rw [if_neg hc]
      rcases ih with ⟨h0, h1⟩ | ⟨i, h0, h1, h2, h3⟩
      · left
        refine ⟨h0, fun j hj => ?_⟩
        by_cases hjn : j = n
        · subst hjn
          exact fun e => hc e.symm
        · exact h1 j (by omega)
      · right
        refine ⟨i, h0, by omega, h2, fun j hj hjc => ?_⟩
        by_cases hjn : j = n
        · subst hjn
          exact absurd hjc.symm hc
        · exact h3 j (by omega) hjc

theorem lookup_indexMapOf_le_52 (n : Nat) (hn : n ≤ 52) (i : Nat) (hi : i < n) :
    (indexMapOf n).lookup (getIndexChar (i : Int)) = some (i : Int) := by
  rcases lookup_indexMapOf n (getIndexChar (i : Int)) with ⟨_, h1⟩ | ⟨k, h0, h1, h2, _⟩
  · exact absurd rfl (h1 i hi)
  · have : k = i := getIndexChar_injOn k i (by omega) (by omega) h2
    rw [h0, this]

theorem len_indexMapOf_le_52 (n : Nat) (hn : n ≤ 52) : (indexMapOf n).len = n := by
  induction n with
  | zero => rfl
  | succ n ih =>
    rw [indexMapOf_succ, GoMap.len_store_of_lookup_none, ih (by omega)]
    rcases lookup_indexMapOf n (getIndexChar (n : Int)) with ⟨h0, _⟩ | ⟨k, _, h1, h2, _⟩
    · exact h0
    · have : k = n := getIndexChar_injOn k n (by omega) (by omega) h2
      omega

theorem keys_indexMapOf_nodup (n : Nat) : (indexMapOf n).keys.Nodup := by
  induction n with
  | zero => exact List.nodup_nil
  | succ n ih =>
    rw [indexMapOf_succ]
    exact GoMap.keys_store_nodup _ _ _ ih

/-- Inside the visible list, `selectSnippet` calls the callback (when there is one) on the
selected snippet and quits. -/
theorem selectSnippet_inRange (ui : UI) (i : Nat) (h : i < ui.currentSnippets.length)
    (hsel : ui.selectedIndex = (i : Int)) :
    selectSnippet ui =
      (ui, (if ui.onSnippetSelected then [Effect.selected (ui.currentSnippets.get ⟨i, h⟩)]
            else []) ++ [Effect.quit]) := by
  unfold selectSnippet
  have hc : 0 ≤ ui.selectedIndex ∧ ui.selectedIndex < (ui.currentSnippets.length : Int) := by
    rw [hsel]; omega
  rw [dif_pos hc]
  have hi : ui.selectedIndex.toNat = i := by rw [hsel]; rfl
  simp only [hi]

theorem selectSnippet_fst (ui : UI) : (selectSnippet ui).1 = ui := by
  unfold selectSnippet
  split <;> rfl
/-! ## Strings and the filter loop -/

theorem Contains_iff_infix (s substr : GoString) : Contains s substr = true ↔ substr <:+: s := by
  induction s with
  | nil =>
    unfold Contains
    rw [List.isPrefixOf_iff_prefix, List.prefix_nil, List.infix_nil]
  | cons c s ih =>
    unfold Contains
    rw [Bool.or_eq_true, List.isPrefixOf_iff_prefix, ih, List.infix_cons_iff]

theorem foldl_append_if {α : Type} (p : α → Bool) (l init : List α) :
    l.foldl (fun current x => if p x then current ++ [x] else current) init =
      init ++ l.filter p := by
  induction l generalizing init with
  | nil => simp
  | cons x l ih =>
    rw [List.foldl_cons, ih, List.filter_cons]
    by_cases hx : p x = true
    · simp [hx]
    · simp [hx]

/-! ## Normal forms of the handlers -/

theorem programmaticSelect_eq (ui : UI) (id : Int) :
    programmaticSelect ui id = { ui with selectedIndex := id, programmaticSelection := false } := by
  simp [programmaticSelect, onSelected]

theorem applyFilter_eq (unicodeLower : GoString → GoString) (ui : UI) :
    applyFilter unicodeLower ui =
      { ui with
        currentSnippets := visibleOf unicodeLower ui
        selectedIndex := 0
        indexMap := indexMapOf (visibleOf unicodeLower ui).length
        programmaticSelection :=
          if (visibleOf unicodeLower ui).length > 0 then false else ui.programmaticSelection } := by
  unfold applyFilter visibleOf
  by_cases hf : ui.filterText = []
  · simp only [hf, if_true, buildIndexMap, programmaticSelect_eq]
    split <;> rfl
  · simp only [hf, if_false, buildIndexMap, programmaticSelect_eq, foldl_append_if, List.nil_append]
    split <;> rfl

theorem exitFilterMode_eq (ui : UI) :
    exitFilterMode ui =
      { ui with
        isFilterMode := false
        filterText := []
        currentSnippets := ui.allSnippets
        selectedIndex := 0
        indexMap := indexMapOf ui.allSnippets.length
        programmaticSelection :=
          if ui.allSnippets.length > 0 then false else ui.programmaticSelection } := by
  unfold exitFilterMode
  simp only [buildIndexMap, programmaticSelect_eq]
  split <;> rfl

theorem createSnippetList_eq (ui : UI) (snippets : List Snippet) (h : snippets ≠ []) :
    createSnippetList ui snippets =
      { ui with
        allSnippets := snippets
        currentSnippets := snippets
        selectedIndex := 0
        isFilterMode := false
        filterText := []
        indexMap := indexMapOf snippets.length
        programmaticSelection := false } := by
  unfold createSnippetList
  have h0 : ¬ snippets.length = 0 := fun e => h (List.length_eq_zero.mp e)
  have h1 : snippets.length > 0 := Nat.pos_of_ne_zero h0
  simp only [h0, if_false, buildIndexMap, programmaticSelect_eq, h1, if_true]

theorem handleNavigation_up (ui : UI) :
    handleNavigation ui Key.Up =
      if ui.selectedIndex > 0 then
        { ui with selectedIndex := ui.selectedIndex - 1, programmaticSelection := false }
      else ui := by
  simp only [handleNavigation, programmaticSelect_eq]

theorem handleNavigation_down (ui : UI) :
    handleNavigation ui Key.Down =
      if ui.selectedIndex < (ui.currentSnippets.length : Int) - 1 then
        { ui with selectedIndex := ui.selectedIndex + 1, programmaticSelection := false }
      else ui := by
  simp only [handleNavigation, programmaticSelect_eq]

theorem handleNavigation_other (ui : UI) (key : Key) (hu : key ≠ Key.Up) (hd : key ≠ Key.Down) :
    handleNavigation ui key = ui := by
  cases key <;> first | rfl | exact absurd rfl hu | exact absurd rfl hd
theorem applyFilter_fields (unicodeLower : GoString → GoString) (ui : UI) :
    (applyFilter unicodeLower ui).isFilterMode = ui.isFilterMode ∧
      (applyFilter unicodeLower ui).filterText = ui.filterText ∧
      (applyFilter unicodeLower ui).allSnippets = ui.allSnippets ∧
      (applyFilter unicodeLower ui).onSnippetSelected = ui.onSnippetSelected := by
  rw [applyFilter_eq]
  exact ⟨rfl, rfl, rfl, rfl⟩

theorem runeToString_ne_nil (r : Int) : runeToString r ≠ [] := by
  unfold runeToString
  dsimp only
  split_ifs <;> simp

theorem matchesFilter_iff (unicodeLower : GoString → GoString) (filterLower : GoString)
    (snippet : Snippet) :
    matchesFilter unicodeLower filterLower snippet = true ↔
      (filterLower <:+: ToLower unicodeLower snippet.DisplayName ∨
        filterLower <:+: ToLower unicodeLower snippet.Content) := by
  unfold matchesFilter
  rw [Bool.or_eq_true, Contains_iff_infix, Contains_iff_infix]

theorem visibleOf_nonempty_filter (unicodeLower : GoString → GoString) (ui : UI)
    (hf : ui.filterText ≠ []) :
    visibleOf unicodeLower ui =
      ui.allSnippets.filter (fun snippet =>
        decide (ToLower unicodeLower ui.filterText <:+: ToLower unicodeLower snippet.DisplayName ∨
          ToLower unicodeLower ui.filterText <:+: ToLower unicodeLower snippet.Content)) := by
  unfold visibleOf
  rw [if_neg hf]
  congr 1
  funext snippet
  rw [Bool.eq_iff_iff, matchesFilter_iff, decide_eq_true_iff]

/-! ## Case-insensitivity of the filter on ASCII text -/

theorem lowerByte_eq_iff (a b : Nat) : lowerByte a = lowerByte b ↔ sameCase a b := by
  unfold lowerByte sameCase
  split_ifs <;> omega

theorem map_lowerByte_eq_iff (f w : GoString) :
    f.map lowerByte = w.map lowerByte ↔ List.Forall₂ sameCase f w := by
  induction f generalizing w with
  | nil =>
    cases w with
    | nil => exact ⟨fun _ => List.Forall₂.nil, fun _ => rfl⟩
    | cons b w =>
      constructor
      · intro h
        exact absurd h (by simp)
      · intro h
        cases h
  | cons a f ih =>
    cases w with
    | nil =>
      constructor
      · intro h
        exact absurd h (by simp)
      · intro h
        cases h
    | cons b w =>
      rw [List.map_cons, List.map_cons, List.cons.injEq, lowerByte_eq_iff, ih,
        List.forall₂_cons]

theorem ToLower_ascii (unicodeLower : GoString → GoString) (s : GoString)
    (h : ∀ c ∈ s, c < 128) : ToLower unicodeLower s = s.map lowerByte := by
  unfold ToLower
  have hascii : s.all (fun c => decide (c < 128)) = true := by
    rw [List.all_eq_true]
    intro c hc
    exact decide_eq_true (h c hc)
  dsimp only
  rw [if_pos hascii]
  split_ifs with hup
  · rw [Bool.not_eq_true', List.any_eq_false] at hup
    symm
    have hmap : s.map lowerByte = s.map id := by
      apply List.map_congr_left
      intro c hc
      have := hup c hc
      unfold lowerByte
      rw [if_neg (by simpa using this)]
      rfl
    rw [hmap, List.map_id]
  · rfl

theorem infix_map_iff (g : Nat → Nat) (f t : GoString) :
    f.map g <:+: t.map g ↔ ∃ w : GoString, w <:+: t ∧ f.map g = w.map g := by
  constructor
  · rintro ⟨p, q, h⟩
    obtain ⟨l₁, l₂, ht, h₁, _⟩ := List.map_eq_append_iff.mp h.symm
    obtain ⟨l₃, w, ht', _, hw⟩ := List.map_eq_append_iff.mp h₁
    refine ⟨w, ⟨l₃, l₂, ?_⟩, hw.symm⟩
    rw [ht, ht']
  · rintro ⟨w, hw, hfw⟩
    rw [hfw]
    exact hw.map g

/-- On ASCII text the test of the filter loop holds exactly when some window of the display
name or of the content equals the filter text up to letter case. -/
theorem matchesFilter_ascii (unicodeLower : GoString → GoString) (f : GoString)
    (snippet : Snippet) (hf : ∀ c ∈ f, c < 128) (hd : ∀ c ∈ snippet.DisplayName, c < 128)
    (hc : ∀ c ∈ snippet.Content, c < 128) :
    (ToLower unicodeLower f <:+: ToLower unicodeLower snippet.DisplayName ∨
        ToLower unicodeLower f <:+: ToLower unicodeLower snippet.Content) ↔
      ((∃ w : GoString, w <:+: snippet.DisplayName ∧ List.Forall₂ sameCase f w) ∨
        ∃ w : GoString, w <:+: snippet.Content ∧ List.Forall₂ sameCase f w) := by
  rw [ToLower_ascii unicodeLower f hf, ToLower_ascii unicodeLower _ hd,
    ToLower_ascii unicodeLower _ hc, infix_map_iff, infix_map_iff]
  simp only [map_lowerByte_eq_iff]

/-- C1: with a non-empty filter text, `applyFilter` leaves as visible list exactly the
snippets of `allSnippets`, in their order, whose lower-cased `DisplayName` or lower-cased
`Content` contains the lower-cased filter text as a substring, and puts the cursor on 0;
`addToFilter` does so for the text extended by the typed rune. The match ignores letter
case: when the filter text and the snippet are ASCII, the snippet is visible exactly when
some window of its display name or of its content equals the filter text up to the case of
the letters `A..Z` / `a..z`. -/
theorem applyFilter_visible (unicodeLower : GoString → GoString) (ui : UI)
    (hf : ui.filterText ≠ []) :
    (applyFilter unicodeLower ui).currentSnippets =
        ui.allSnippets.filter (fun snippet =>
          decide (ToLower unicodeLower ui.filterText <:+: ToLower unicodeLower snippet.DisplayName ∨
            ToLower unicodeLower ui.filterText <:+: ToLower unicodeLower snippet.Content)) ∧
      (applyFilter unicodeLower ui).currentSnippets.Sublist ui.allSnippets ∧
      (applyFilter unicodeLower ui).selectedIndex = 0 ∧
      (applyFilter unicodeLower ui).allSnippets = ui.allSnippets ∧
      (∀ snippet ∈ ui.allSnippets,
        (∀ c ∈ ui.filterText, c < 128) → (∀ c ∈ snippet.DisplayName, c < 128) →
          (∀ c ∈ snippet.Content, c < 128) →
            (snippet ∈ (applyFilter unicodeLower ui).currentSnippets ↔
              ((∃ w : GoString, w <:+: snippet.DisplayName ∧
                  List.Forall₂ sameCase ui.filterText w) ∨
                ∃ w : GoString, w <:+: snippet.Content ∧
                  List.Forall₂ sameCase ui.filterText w))) ∧
      ∀ r : Int,
        (addToFilter unicodeLower ui r).currentSnippets =
            ui.allSnippets.filter (fun snippet =>
              decide (ToLower unicodeLower (ui.filterText ++ runeToString r) <:+:
                    ToLower unicodeLower snippet.DisplayName ∨
                ToLower unicodeLower (ui.filterText ++ runeToString r) <:+:
                    ToLower unicodeLower snippet.Content)) ∧
          (addToFilter unicodeLower ui r).selectedIndex = 0 := by
  have hv := visibleOf_nonempty_filter unicodeLower ui hf
  have hcur : (applyFilter unicodeLower ui).currentSnippets = visibleOf unicodeLower ui := by
    rw [applyFilter_eq]
  refine ⟨?_, ?_, ?_, ?_, ?_, ?_⟩
  · rw [hcur]; exact hv
  · rw [hcur, hv]
    exact List.filter_sublist _
  · rw [applyFilter_eq]
  · rw [applyFilter_eq]
  · intro snippet hs hft hd hc
    rw [hcur, hv, List.mem_filter, decide_eq_true_iff,
      matchesFilter_ascii unicodeLower _ snippet hft hd hc]
    exact ⟨fun h => h.2, fun h => ⟨hs, h⟩⟩
  · intro r
    unfold addToFilter
    rw [applyFilter_eq]
    refine ⟨?_, rfl⟩
    exact visibleOf_nonempty_filter unicodeLower _
      (fun e => runeToString_ne_nil r (List.append_eq_nil.mp e).2)

theorem applyFilter_visible_witness :
    (filtering [plain "Apple", plain "BANANA", plain "grape"] "aN").filterText ≠ [] ∧
      (applyFilter id (filtering [plain "Apple", plain "BANANA", plain "grape"] "aN")).currentSnippets
        = [plain "BANANA"] ∧
      (applyFilter id (filtering [plain "Apple", plain "BANANA", plain "grape"] "aN")).selectedIndex
        = 0 ∧
      (plain "BANANA" ∈
          (applyFilter id
            (filtering [plain "Apple", plain "BANANA", plain "grape"] "aN")).currentSnippets ↔
        ((∃ w : GoString, w <:+: lit "BANANA" ∧ List.Forall₂ sameCase (lit "aN") w) ∨
          ∃ w : GoString, w <:+: ([] : GoString) ∧ List.Forall₂ sameCase (lit "aN") w)) ∧
      List.Forall₂ sameCase (lit "aN") (lit "AN") ∧
      (filtering [plain "apple", plain "banana", plain "grape"] "an").filterText ≠ [] ∧
      (applyFilter id (filtering [plain "apple", plain "banana", plain "grape"] "an")).currentSnippets
        = [plain "banana"] ∧
      (applyFilter id (filtering [plain "apple", plain "banana", plain "grape"] "an")).selectedIndex
        = 0 := by
  have h := applyFilter_visible id
    (filtering [plain "Apple", plain "BANANA", plain "grape"] "aN") (by decide)
  have g := applyFilter_visible id
    (filtering [plain "apple", plain "banana", plain "grape"] "an") (by decide)
  refine ⟨by decide, ?_, h.2.2.1, ?_, by decide, by decide, ?_, g.2.2.1⟩
  · rw [h.1]
    decide
  · exact h.2.2.2.2.1 (plain "BANANA") (by decide) (by decide) (by decide) (by decide)
  · rw [g.1]
    decide
/-- C10: in Filter mode the typed-rune callback is `addToFilter` and nothing else: it emits
no effect (no selection, no quit, whatever `indexMap` holds and whatever the rune), the text
becomes the old text followed by the bytes of the rune, the filter is re-applied to it, and
the state stays in Filter mode. -/
theorem onTypedRune_filterMode (unicodeLower : GoString → GoString) (ui : UI) (r : Int)
    (hm : ui.isFilterMode = true) :
    onTypedRune unicodeLower ui r = (addToFilter unicodeLower ui r, []) ∧
      (onTypedRune unicodeLower ui r).2 = [] ∧
      (onTypedRune unicodeLower ui r).1.isFilterMode = true ∧
      (onTypedRune unicodeLower ui r).1.filterText = ui.filterText ++ runeToString r ∧
      (onTypedRune unicodeLower ui r).1 =
        applyFilter unicodeLower { ui with filterText := ui.filterText ++ runeToString r } := by
  have h : onTypedRune unicodeLower ui r = (addToFilter unicodeLower ui r, []) := by
    unfold onTypedRune
    rw [if_pos hm]
  rw [h]
  refine ⟨rfl, rfl, ?_, ?_, rfl⟩
  · show (addToFilter unicodeLower ui r).isFilterMode = true
    unfold addToFilter
    rw [(applyFilter_fields unicodeLower _).1]
    exact hm
  · show (addToFilter unicodeLower ui r).filterText = _
    unfold addToFilter
    rw [(applyFilter_fields unicodeLower _).2.1]

theorem onTypedRune_filterMode_witness :
    (filtering [plain "apple", plain "banana"] "").isFilterMode = true ∧
      onTypedRune id (filtering [plain "apple", plain "banana"] "") 97 =
        (addToFilter id (filtering [plain "apple", plain "banana"] "") 97, []) ∧
      (filtering [plain "apple", plain "banana"] "").indexMap.lookup 97 = some 0 :=
  ⟨by decide,
    (onTypedRune_filterMode id (filtering [plain "apple", plain "banana"] "") 97 (by decide)).1,
    by decide⟩
theorem getIndexChar_ne_slash (i : Nat) :
    getIndexChar (i : Int) ≠ 47 ∧ getIndexChar (i : Int) ≠ 63 := by
  rcases getIndexChar_letter i with h | h <;> constructor <;> omega

/-- In Normal mode, a rune bound in the map built for the visible list selects the row it is
bound to. -/
theorem onTypedRune_shortcut (unicodeLower : GoString → GoString) (ui : UI) (c : Int) (i : Nat)
    (hi : i < ui.currentSnippets.length) (hm : ui.isFilterMode = false)
    (hc1 : c ≠ 47) (hc2 : c ≠ 63)
    (hl : (buildIndexMap ui).indexMap.lookup c = some (i : Int)) :
    onTypedRune unicodeLower (buildIndexMap ui) c =
      ({ buildIndexMap ui with selectedIndex := (i : Int) },
        (if ui.onSnippetSelected then [Effect.selected (ui.currentSnippets.get ⟨i, hi⟩)] else [])
          ++ [Effect.quit]) := by
  have hm' : ¬ (buildIndexMap ui).isFilterMode = true := by
    show ¬ ui.isFilterMode = true
    rw [hm]
    exact Bool.false_ne_true
  unfold onTypedRune
  rw [if_neg hm', if_neg hc1, if_neg hc2, hl]
  exact selectSnippet_inRange { buildIndexMap ui with selectedIndex := (i : Int) } i hi rfl

/-- C2: for a visible list of `n ≤ 52` rows, `buildIndexMap` builds a map of exactly `n`
(pairwise different) keys binding `getIndexChar i` to `i` for every `i < n`; these letters are `a..z` for rows
0..25 and `A..Z` for rows 26..51 and are pairwise distinct; in Normal mode, typing the letter
of row `i` sets `selectedIndex` to `i`, hands `currentSnippets[i]` to the selection callback
and quits. -/
theorem buildIndexMap_shortcuts (unicodeLower : GoString → GoString) (ui : UI)
    (hn : ui.currentSnippets.length ≤ 52) :
    (buildIndexMap ui).indexMap.len = ui.currentSnippets.length ∧
      (buildIndexMap ui).indexMap.keys.Nodup ∧
      (∀ i : Nat, i < ui.currentSnippets.length →
        (buildIndexMap ui).indexMap.lookup (getIndexChar (i : Int)) = some (i : Int)) ∧
      (∀ i : Nat, i < ui.currentSnippets.length →
        getIndexChar (i : Int) = if i < 26 then 97 + (i : Int) else 65 + ((i : Int) - 26)) ∧
      (∀ i j : Nat, i < ui.currentSnippets.length → j < ui.currentSnippets.length →
        getIndexChar (i : Int) = getIndexChar (j : Int) → i = j) ∧
      ∀ (i : Nat) (hi : i < ui.currentSnippets.length),
        ui.isFilterMode = false → ui.onSnippetSelected = true →
          onTypedRune unicodeLower (buildIndexMap ui) (getIndexChar (i : Int)) =
            ({ buildIndexMap ui with selectedIndex := (i : Int) },
              [Effect.selected (ui.currentSnippets.get ⟨i, hi⟩), Effect.quit]) := by
  refine ⟨len_indexMapOf_le_52 _ hn, keys_indexMapOf_nodup _,
    fun i hi => lookup_indexMapOf_le_52 _ hn i hi, ?_, ?_, ?_⟩
  · intro i hi
    rw [getIndexChar_lt_52 i (by omega)]
    split_ifs <;> omega
  · intro i j hi hj h
    exact getIndexChar_injOn i j (by omega) (by omega) h
  · intro i hi hm hcb
    rw [onTypedRune_shortcut unicodeLower ui _ i hi hm (getIndexChar_ne_slash i).1
      (getIndexChar_ne_slash i).2 (lookup_indexMapOf_le_52 _ hn i hi), hcb]
    rfl

theorem buildIndexMap_shortcuts_witness :
    (shown [plain "x", plain "y", plain "z"]).currentSnippets.length ≤ 52 ∧
      (buildIndexMap (shown [plain "x", plain "y", plain "z"])).indexMap.len = 3 ∧
      (buildIndexMap (shown [plain "x", plain "y", plain "z"])).indexMap.lookup 97 = some 0 ∧
      (buildIndexMap (shown [plain "x", plain "y", plain "z"])).indexMap.lookup 98 = some 1 ∧
      (buildIndexMap (shown [plain "x", plain "y", plain "z"])).indexMap.lookup 99 = some 2 ∧
      onTypedRune id (buildIndexMap (shown [plain "x", plain "y", plain "z"])) 98 =
        ({ buildIndexMap (shown [plain "x", plain "y", plain "z"]) with selectedIndex := 1 },
          [Effect.selected (plain "y"), Effect.quit]) := by
  have h := buildIndexMap_shortcuts id (shown [plain "x", plain "y", plain "z"]) (by decide)
  exact ⟨by decide, h.1, h.2.2.1 0 (by decide), h.2.2.1 1 (by decide), h.2.2.1 2 (by decide),
    h.2.2.2.2.2 1 (by decide) (by decide) (by decide)⟩

/-- C9: two different rows below `n = len(currentSnippets)` carry the same letter `c` only
when `n > 52`, and then the map built by `buildIndexMap` binds `c` to the largest row `k < n` carrying `c` (the last
write): a smaller row carries `c` too, no rune is bound to any other row carrying `c`, and
typing `c` in Normal mode puts the cursor on `k`. -/
theorem buildIndexMap_last_write_wins (unicodeLower : GoString → GoString) (ui : UI) (c : Int)
    (i j : Nat) (hi : i < ui.currentSnippets.length) (hj : j < ui.currentSnippets.length) (hij : i ≠ j)
    (hci : getIndexChar (i : Int) = c) (hcj : getIndexChar (j : Int) = c) :
    52 < ui.currentSnippets.length ∧
    ∃ k : Nat, k < ui.currentSnippets.length ∧ getIndexChar (k : Int) = c ∧
      (∀ l : Nat, l < ui.currentSnippets.length → getIndexChar (l : Int) = c → l ≤ k) ∧
      (∃ l : Nat, l < k ∧ getIndexChar (l : Int) = c) ∧
      (buildIndexMap ui).indexMap.lookup c = some (k : Int) ∧
      (∀ l : Nat, l < ui.currentSnippets.length → getIndexChar (l : Int) = c → l ≠ k →
        ∀ r : Int, (buildIndexMap ui).indexMap.lookup r ≠ some (l : Int)) ∧
      (ui.isFilterMode = false →
        (onTypedRune unicodeLower (buildIndexMap ui) c).1.selectedIndex = (k : Int)) := by
  have hn : 52 < ui.currentSnippets.length := by
    by_contra hle
    exact hij (getIndexChar_injOn i j (by omega) (by omega) (hci.trans hcj.symm))
  refine ⟨hn, ?_⟩
  rcases lookup_indexMapOf ui.currentSnippets.length c with ⟨_, h1⟩ | ⟨k, h0, h1, h2, h3⟩
  · exact absurd hci (h1 i hi)
  · refine ⟨k, h1, h2, h3, ?_, h0, ?_, ?_⟩
    · have hik := h3 i hi hci
      have hjk := h3 j hj hcj
      by_cases hik' : i = k
      · exact ⟨j, by omega, hcj⟩
      · exact ⟨i, by omega, hci⟩
    · intro l hl hlc hlk r hr
      rcases lookup_indexMapOf ui.currentSnippets.length r with ⟨g0, _⟩ | ⟨m, g0, _, g2, _⟩
      · have hr' : (indexMapOf ui.currentSnippets.length).lookup r = some (l : Int) := hr
        rw [g0] at hr'
        exact Option.noConfusion hr'
      · have hr' : (indexMapOf ui.currentSnippets.length).lookup r = some (l : Int) := hr
        rw [g0] at hr'
        have hml : m = l := by
          have := Option.some.inj hr'
          omega
        subst hml
        have hrc : r = c := g2.symm.trans hlc
        subst hrc
        have h0' : (indexMapOf ui.currentSnippets.length).lookup r = some (k : Int) := h0
        rw [g0] at h0'
        have := Option.some.inj h0'
        omega
    · intro hm
      have hc : c ≠ 47 ∧ c ≠ 63 := by
        rw [← h2]
        exact getIndexChar_ne_slash k
      rw [onTypedRune_shortcut unicodeLower ui c k h1 hm hc.1 hc.2 h0]

theorem buildIndexMap_last_write_wins_witness :
    (shown (List.replicate 53 (plain "s"))).currentSnippets.length = 53 ∧
      getIndexChar 0 = 97 ∧ getIndexChar 52 = 97 ∧
      (buildIndexMap (shown (List.replicate 53 (plain "s")))).indexMap.lookup 97 = some 52 ∧
      ∀ r : Int, (buildIndexMap (shown (List.replicate 53 (plain "s")))).indexMap.lookup r
        ≠ some 0 := by
  obtain ⟨_, k, hk, _, hmax, _, hlook, hnone, _⟩ :=
    buildIndexMap_last_write_wins id (shown (List.replicate 53 (plain "s"))) 97 0 52
      (by decide) (by decide) (by decide) (by decide) (by decide)
  have hlen : (shown (List.replicate 53 (plain "s"))).currentSnippets.length = 53 := by decide
  have h52 : 52 ≤ k := hmax 52 (by decide) (by decide)
  have hk52 : k = 52 := by omega
  subst hk52
  exact ⟨by decide, by decide, by decide, hlook, hnone 0 (by decide) (by decide) (by decide)⟩
/-! ## The session invariant -/

theorem consistent_createSnippetList (ui : UI) (snippets : List Snippet) (h : snippets ≠ []) :
    Consistent (createSnippetList ui snippets) := by
  rw [createSnippetList_eq ui snippets h]
  exact ⟨rfl, le_refl _, Or.inr rfl⟩

theorem consistent_handleNavigation (ui : UI) (key : Key) (h : Consistent ui) :
    Consistent (handleNavigation ui key) := by
  obtain ⟨h1, h2, h3⟩ := h
  cases key
  case Up =>
    rw [handleNavigation_up]
    split_ifs with hc
    · refine ⟨h1, ?_, ?_⟩
      · show 0 ≤ ui.selectedIndex - 1
        omega
      · show ui.selectedIndex - 1 < (ui.currentSnippets.length : Int) ∨ ui.selectedIndex - 1 = 0
        omega
    · exact ⟨h1, h2, h3⟩
  case Down =>
    rw [handleNavigation_down]
    split_ifs with hc
    · refine ⟨h1, ?_, ?_⟩
      · show 0 ≤ ui.selectedIndex + 1
        omega
      · show ui.selectedIndex + 1 < (ui.currentSnippets.length : Int) ∨ ui.selectedIndex + 1 = 0
        omega
    · exact ⟨h1, h2, h3⟩
  all_goals exact ⟨h1, h2, h3⟩

theorem consistent_enterFilterMode (ui : UI) (h : Consistent ui) :
    Consistent (enterFilterMode ui) := h

theorem consistent_applyFilter (unicodeLower : GoString → GoString) (ui : UI) :
    Consistent (applyFilter unicodeLower ui) := by
  rw [applyFilter_eq]
  exact ⟨rfl, le_refl _, Or.inr rfl⟩

theorem consistent_addToFilter (unicodeLower : GoString → GoString) (ui : UI) (r : Int) :
    Consistent (addToFilter unicodeLower ui r) :=
  consistent_applyFilter unicodeLower _

theorem consistent_handleBackspace (unicodeLower : GoString → GoString) (ui : UI)
    (h : Consistent ui) : Consistent (handleBackspace unicodeLower ui) := by
  unfold handleBackspace
  split_ifs
  · exact consistent_applyFilter unicodeLower _
  · exact h

theorem consistent_exitFilterMode (ui : UI) : Consistent (exitFilterMode ui) := by
  rw [exitFilterMode_eq]
  exact ⟨rfl, le_refl _, Or.inr rfl⟩

theorem consistent_onTypedKey (unicodeLower : GoString → GoString) (ui : UI) (key : Key)
    (h : Consistent ui) : Consistent (onTypedKey unicodeLower ui key).1 := by
  unfold onTypedKey
  split_ifs <;> cases key <;>
    first
    | exact consistent_handleNavigation ui _ h
    | exact consistent_exitFilterMode ui
    | exact consistent_handleBackspace unicodeLower ui h
    | exact h
    | (show Consistent (selectSnippet ui).1; rw [selectSnippet_fst]; exact h)

theorem consistent_onTypedRune (unicodeLower : GoString → GoString) (ui : UI) (r : Int)
    (h : Consistent ui) : Consistent (onTypedRune unicodeLower ui r).1 := by
  unfold onTypedRune
  split_ifs
  · exact consistent_addToFilter unicodeLower ui r
  · exact consistent_enterFilterMode ui h
  · exact h
  · obtain ⟨h1, h2, h3⟩ := h
    rcases lookup_indexMapOf ui.currentSnippets.length r with ⟨g0, _⟩ | ⟨i, g0, g1, _, _⟩
    · have g0' : ui.indexMap.lookup r = none := by rw [h1]; exact g0
      rw [g0']
      exact ⟨h1, h2, h3⟩
    · have g0' : ui.indexMap.lookup r = some (i : Int) := by rw [h1]; exact g0
      rw [g0']
      show Consistent (selectSnippet _).1
      rw [selectSnippet_fst]
      refine ⟨h1, ?_, ?_⟩
      · show (0 : Int) ≤ (i : Int)
        omega
      · left
        show (i : Int) < (ui.currentSnippets.length : Int)
        omega

theorem consistent_onSelected (ui : UI) (id : Int) (h0 : 0 ≤ id)
    (h1 : id < (ui.currentSnippets.length : Int)) (h : Consistent ui) :
    Consistent (onSelected ui id).1 := by
  have hs : (onSelected ui id).1 = { ui with selectedIndex := id } := by
    unfold onSelected
    dsimp only
    split_ifs
    · rw [selectSnippet_fst]
    · rfl
  rw [hs]
  exact ⟨h.1, h0, Or.inl h1⟩

/-- Every state of the session satisfies the invariant. -/
theorem reachable_consistent (unicodeLower : GoString → GoString) (ui : UI)
    (h : Reachable unicodeLower ui) : Consistent ui := by
  induction h with
  | init ui snippets h => exact consistent_createSnippetList ui snippets h
  | navigation key _ ih => exact consistent_handleNavigation _ key ih
  | enterFilter _ ih => exact consistent_enterFilterMode _ ih
  | addFilter r _ _ => exact consistent_addToFilter unicodeLower _ r
  | backspace _ ih => exact consistent_handleBackspace unicodeLower _ ih
  | exitFilter _ _ => exact consistent_exitFilterMode _
  | typedKey key _ ih => exact consistent_onTypedKey unicodeLower _ key ih
  | typedRune r _ ih => exact consistent_onTypedRune unicodeLower _ r ih
  | click id h0 h1 _ ih => exact consistent_onSelected _ id h0 h1 ih

/-- C5: in every state reached from `createSnippetList` on a non-empty list through the
handlers (navigation, entering and leaving Filter mode, typing and deleting filter text, the
typed-key and typed-rune callbacks with their shortcut lookup, a click on a row of the
visible list), a non-empty visible list has `0 ≤ selectedIndex < len(currentSnippets)`. -/
theorem reachable_cursor_inRange (unicodeLower : GoString → GoString) (ui : UI)
    (h : Reachable unicodeLower ui) (hne : ui.currentSnippets ≠ []) :
    0 ≤ ui.selectedIndex ∧ ui.selectedIndex < (ui.currentSnippets.length : Int) := by
  obtain ⟨_, h2, h3⟩ := reachable_consistent unicodeLower ui h
  have hlen : 0 < ui.currentSnippets.length := List.length_pos.mpr hne
  refine ⟨h2, ?_⟩
  omega

theorem reachable_cursor_inRange_witness :
    Reachable id (onTypedRune id (handleNavigation (shown [plain "x", plain "y"]) Key.Down) 97).1 ∧
      (onTypedRune id (handleNavigation (shown [plain "x", plain "y"]) Key.Down) 97).1.currentSnippets
        ≠ [] ∧
      (onTypedRune id (handleNavigation (shown [plain "x", plain "y"]) Key.Down) 97).1.selectedIndex
        = 0 ∧
      (0 : Int) ≤ (onTypedRune id (handleNavigation (shown [plain "x", plain "y"]) Key.Down)
        97).1.selectedIndex ∧
      (onTypedRune id (handleNavigation (shown [plain "x", plain "y"]) Key.Down) 97).1.selectedIndex
        < 2 := by
  have hr : Reachable id
      (onTypedRune id (handleNavigation (shown [plain "x", plain "y"]) Key.Down) 97).1 :=
    Reachable.typedRune 97 (Reachable.navigation Key.Down (Reachable.init _ _ (by decide)))
  have h := reachable_cursor_inRange id _ hr (by decide)
  exact ⟨hr, by decide, by decide, h.1, h.2⟩
/-- C6: `handleNavigation` with Up moves the cursor one row up when `selectedIndex > 0` and
otherwise returns the state as it is; with Down it moves the cursor one row down when
`selectedIndex < len(currentSnippets) - 1` and otherwise returns the state as it is. There
is no wraparound: Up on row 0 and Down on the last row change nothing, nor does any key on
the empty visible list of a session state. The visible list, the filter text, the mode, the
snippets and the index map are never changed. -/
theorem handleNavigation_spec (unicodeLower : GoString → GoString) (ui : UI) :
    (ui.selectedIndex > 0 →
        handleNavigation ui Key.Up =
          { ui with selectedIndex := ui.selectedIndex - 1, programmaticSelection := false }) ∧
      (¬ ui.selectedIndex > 0 → handleNavigation ui Key.Up = ui) ∧
      (ui.selectedIndex < (ui.currentSnippets.length : Int) - 1 →
        handleNavigation ui Key.Down =
          { ui with selectedIndex := ui.selectedIndex + 1, programmaticSelection := false }) ∧
      (¬ ui.selectedIndex < (ui.currentSnippets.length : Int) - 1 →
        handleNavigation ui Key.Down = ui) ∧
      (ui.selectedIndex = 0 → handleNavigation ui Key.Up = ui) ∧
      (ui.selectedIndex = (ui.currentSnippets.length : Int) - 1 →
        handleNavigation ui Key.Down = ui) ∧
      (Reachable unicodeLower ui → ui.currentSnippets = [] →
        ∀ key : Key, handleNavigation ui key = ui) ∧
      ∀ key : Key,
        (handleNavigation ui key).currentSnippets = ui.currentSnippets ∧
          (handleNavigation ui key).filterText = ui.filterText ∧
          (handleNavigation ui key).isFilterMode = ui.isFilterMode ∧
          (handleNavigation ui key).allSnippets = ui.allSnippets ∧
          (handleNavigation ui key).indexMap = ui.indexMap := by
  refine ⟨?_, ?_, ?_, ?_, ?_, ?_, ?_, ?_⟩
  · intro h
    rw [handleNavigation_up, if_pos h]
  · intro h
    rw [handleNavigation_up, if_neg h]
  · intro h
    rw [handleNavigation_down, if_pos h]
  · intro h
    rw [handleNavigation_down, if_neg h]
  · intro h
    rw [handleNavigation_up, if_neg (by omega)]
  · intro h
    rw [handleNavigation_down, if_neg (by omega)]
  · intro hr he key
    obtain ⟨_, h2, h3⟩ := reachable_consistent unicodeLower ui hr
    have hlen : ui.currentSnippets.length = 0 := by rw [he]; rfl
    cases key
    case Up => rw [handleNavigation_up, if_neg (by omega)]
    case Down => rw [handleNavigation_down, if_neg (by omega)]
    all_goals rfl
  · intro key
    cases key
    case Up =>
      rw [handleNavigation_up]
      split_ifs <;> exact ⟨rfl, rfl, rfl, rfl, rfl⟩
    case Down =>
      rw [handleNavigation_down]
      split_ifs <;> exact ⟨rfl, rfl, rfl, rfl, rfl⟩
    all_goals exact ⟨rfl, rfl, rfl, rfl, rfl⟩

theorem handleNavigation_spec_witness :
    Reachable id (addToFilter id (enterFilterMode (shown [plain "x", plain "y"])) 113) ∧
      (addToFilter id (enterFilterMode (shown [plain "x", plain "y"])) 113).currentSnippets = [] ∧
      (∀ key : Key,
        handleNavigation (addToFilter id (enterFilterMode (shown [plain "x", plain "y"])) 113) key
          = addToFilter id (enterFilterMode (shown [plain "x", plain "y"])) 113) ∧
      (shown [plain "x", plain "y"]).selectedIndex = 0 ∧
      handleNavigation (shown [plain "x", plain "y"]) Key.Up = shown [plain "x", plain "y"] ∧
      handleNavigation (shown [plain "x", plain "y"]) Key.Down =
        { shown [plain "x", plain "y"] with selectedIndex := 1 } ∧
      handleNavigation (handleNavigation (shown [plain "x", plain "y"]) Key.Down) Key.Down =
        handleNavigation (shown [plain "x", plain "y"]) Key.Down := by
  have hr : Reachable id (addToFilter id (enterFilterMode (shown [plain "x", plain "y"])) 113) :=
    Reachable.addFilter 113 (Reachable.enterFilter (Reachable.init _ _ (by decide)))
  refine ⟨hr, by decide, ?_, by decide, ?_, ?_, ?_⟩
  · exact (handleNavigation_spec id _).2.2.2.2.2.2.1 hr (by decide)
  · exact (handleNavigation_spec id (shown [plain "x", plain "y"])).2.2.2.2.1 (by decide)
  · rw [(handleNavigation_spec id (shown [plain "x", plain "y"])).2.2.1 (by decide)]
    decide
  · exact (handleNavigation_spec id
      (handleNavigation (shown [plain "x", plain "y"]) Key.Down)).2.2.2.2.2.1 (by decide)

/-- C8: whatever the state, `exitFilterMode` yields Normal mode, an empty filter text, the
visible list `allSnippets`, the cursor on 0 and the index map built for `allSnippets`; a
second `exitFilterMode` right after the first returns the very same state. -/
theorem exitFilterMode_idempotent (ui : UI) :
    (exitFilterMode ui).isFilterMode = false ∧
      (exitFilterMode ui).filterText = [] ∧
      (exitFilterMode ui).currentSnippets = ui.allSnippets ∧
      (exitFilterMode ui).allSnippets = ui.allSnippets ∧
      (exitFilterMode ui).selectedIndex = 0 ∧
      (exitFilterMode ui).indexMap = indexMapOf ui.allSnippets.length ∧
      (exitFilterMode ui).indexMap = (buildIndexMap (exitFilterMode ui)).indexMap ∧
      exitFilterMode (exitFilterMode ui) = exitFilterMode ui := by
  refine ⟨?_, ?_, ?_, ?_, ?_, ?_, ?_, ?_⟩
  · rw [exitFilterMode_eq]
  · rw [exitFilterMode_eq]
  · rw [exitFilterMode_eq]
  · rw [exitFilterMode_eq]
  · rw [exitFilterMode_eq]
  · rw [exitFilterMode_eq]
  · rw [exitFilterMode_eq]
    rfl
  · rw [exitFilterMode_eq (exitFilterMode ui), exitFilterMode_eq ui]
    by_cases h : ui.allSnippets.length > 0
    · simp only [h, if_true]
    · simp only [h, if_false]
/-! ## The snippet repository -/

theorem countFold_lookup (l : List Snippet) (m : GoMap GoString Int) (name : GoString) :
    ((l.foldl
        (fun nameCount snippet =>
          nameCount.store snippet.Name ((nameCount.lookup snippet.Name).getD 0 + 1))
        m).lookup name).getD 0 =
      (m.lookup name).getD 0 + ((l.map Snippet.Name).count name : Int) := by
  induction l generalizing m with
  | nil => simp
  | cons s l ih =>
    rw [List.foldl_cons, ih, GoMap.lookup_store, List.map_cons, List.count_cons]
    by_cases h : name = s.Name
    · subst h
      simp
      omega
    · have h' : ¬ s.Name = name := fun e => h e.symm
      simp [h, h']

theorem countNames_lookup (l : List Snippet) (name : GoString) :
    ((countNames l).lookup name).getD 0 = ((l.map Snippet.Name).count name : Int) := by
  unfold countNames
  rw [countFold_lookup]
  simp [GoMap.lookup_empty]

theorem resolveStep_getElem (nameCount : GoMap GoString Int) (l acc : List Snippet) (k : Nat)
    (hk : k < l.length) (hlen : acc.length = l.length)
    (hget : ∀ j : Nat, acc[j]? =
      if j < k then
        (l[j]?).map (fun s =>
          if (nameCount.lookup s.Name).getD 0 > 1 then
            { s with DisplayName := s.Name ++ Ext s.Path }
          else s)
      else l[j]?) :
    (resolveStep nameCount acc k).length = l.length ∧
      ∀ j : Nat, (resolveStep nameCount acc k)[j]? =
        if j < k + 1 then
          (l[j]?).map (fun s =>
            if (nameCount.lookup s.Name).getD 0 > 1 then
              { s with DisplayName := s.Name ++ Ext s.Path }
            else s)
        else l[j]? := by
  have hkk : l[k]? = some (l.get ⟨k, hk⟩) := List.getElem?_eq_getElem hk
  have hacc := hget k
  rw [if_neg (Nat.lt_irrefl k), hkk] at hacc
  unfold resolveStep
  rw [hacc]
  dsimp only
  by_cases hc : (nameCount.lookup (l.get ⟨k, hk⟩).Name).getD 0 > 1
  · rw [if_pos hc]
    refine ⟨by rw [List.length_set, hlen], fun j => ?_⟩
    rw [List.getElem?_set, hlen]
    by_cases hj : k = j
    · subst hj
      rw [if_pos rfl, if_pos hk, if_pos (Nat.lt_succ_self k), hkk, Option.map_some',
        if_pos hc]
    · rw [if_neg hj, hget j]
      by_cases hjk : j < k
      · rw [if_pos hjk, if_pos (by omega)]
      · rw [if_neg hjk, if_neg (by omega)]
  · rw [if_neg hc]
    refine ⟨hlen, fun j => ?_⟩
    rw [hget j]
    by_cases hj : k = j
    · subst hj
      rw [if_neg (Nat.lt_irrefl k), if_pos (Nat.lt_succ_self k), hkk, Option.map_some',
        if_neg hc]
    · by_cases hjk : j < k
      · rw [if_pos hjk, if_pos (by omega)]
      · rw [if_neg hjk, if_neg (by omega)]

theorem resolveLoop_getElem (nameCount : GoMap GoString Int) (l : List Snippet) (k : Nat)
    (hk : k ≤ l.length) :
    ((List.range k).foldl (resolveStep nameCount) l).length = l.length ∧
      ∀ j : Nat, ((List.range k).foldl (resolveStep nameCount) l)[j]? =
        if j < k then
          (l[j]?).map (fun s =>
            if (nameCount.lookup s.Name).getD 0 > 1 then
              { s with DisplayName := s.Name ++ Ext s.Path }
            else s)
        else l[j]? := by
  induction k with
  | zero => simp
  | succ k ih =>
    obtain ⟨ihl, ihg⟩ := ih (by omega)
    rw [List.range_succ, List.foldl_append, List.foldl_cons, List.foldl_nil]
    exact resolveStep_getElem nameCount l _ k (by omega) ihl ihg

/-- The two loops of `resolveDuplicateNames` apply the renaming rule to every snippet, with
the names of the whole list. -/
theorem resolveDuplicateNames_eq_map (l : List Snippet) :
    resolveDuplicateNames l = l.map (rename (l.map Snippet.Name)) := by
  unfold resolveDuplicateNames
  dsimp only
  apply List.ext_getElem?
  intro j
  rw [(resolveLoop_getElem (countNames l) l l.length (le_refl _)).2 j, List.getElem?_map]
  have hf : (fun s : Snippet =>
      if ((countNames l).lookup s.Name).getD 0 > 1 then
        { s with DisplayName := s.Name ++ Ext s.Path }
      else s) = rename (l.map Snippet.Name) := by
    funext s
    unfold rename
    rw [countNames_lookup]
    by_cases hc : 1 < (l.map Snippet.Name).count s.Name
    · rw [if_pos hc, if_pos (by omega)]
    · rw [if_neg hc, if_neg (by omega)]
  rw [hf]
  by_cases hj : j < l.length
  · rw [if_pos hj]
  · rw [if_neg hj, List.getElem?_eq_none (by omega)]
    rfl

theorem rename_fields (names : List GoString) (s : Snippet) :
    (rename names s).Name = s.Name ∧ (rename names s).Content = s.Content ∧
      (rename names s).Path = s.Path := by
  unfold rename
  split_ifs <;> exact ⟨rfl, rfl, rfl⟩

theorem resolveDuplicateNames_fields (l : List Snippet) :
    (resolveDuplicateNames l).length = l.length ∧
      (resolveDuplicateNames l).map Snippet.Name = l.map Snippet.Name ∧
      (resolveDuplicateNames l).map Snippet.Content = l.map Snippet.Content ∧
      (resolveDuplicateNames l).map Snippet.Path = l.map Snippet.Path := by
  rw [resolveDuplicateNames_eq_map]
  refine ⟨List.length_map _ _, ?_, ?_, ?_⟩ <;> rw [List.map_map] <;> congr 1 <;> funext s
  · exact (rename_fields _ s).1
  · exact (rename_fields _ s).2.1
  · exact (rename_fields _ s).2.2

theorem walkSnippets_displayName (walk : List DirEntry) (acc built : List Snippet)
    (h : walkSnippets walk acc = some built) (hacc : ∀ s ∈ acc, s.DisplayName = s.Name) :
    ∀ s ∈ built, s.DisplayName = s.Name := by
  induction walk generalizing acc with
  | nil =>
    unfold walkSnippets at h
    rw [← Option.some.inj h]
    exact hacc
  | cons d rest ih =>
    unfold walkSnippets at h
    split_ifs at h
    · exact ih acc h hacc
    · exact ih acc h hacc
    · cases hcontent : d.content with
      | none => rw [hcontent] at h; exact Option.noConfusion h
      | some content =>
        rw [hcontent] at h
        refine ih _ h (fun s hs => ?_)
        rcases List.mem_append.mp hs with hs | hs
        · exact hacc s hs
        · rw [List.mem_singleton.mp hs]

theorem resolveDuplicateNames_perm (l b : List Snippet) (h : l.Perm b) :
    ((resolveDuplicateNames l).map Snippet.DisplayName).Perm
      ((resolveDuplicateNames b).map Snippet.DisplayName) := by
  rw [resolveDuplicateNames_eq_map, resolveDuplicateNames_eq_map]
  have hf : rename (l.map Snippet.Name) = rename (b.map Snippet.Name) := by
    funext s
    unfold rename List.count
    rw [(h.map Snippet.Name).countP_eq]
  rw [hf]
  exact (h.map _).map _
theorem insertLeft_perm (less : Snippet → Snippet → Bool) (x : Snippet) (l : List Snippet) :
    (insertLeft less x l).Perm (x :: l) := by
  induction l with
  | nil => exact List.Perm.refl _
  | cons y l ih =>
    unfold insertLeft
    split_ifs
    · exact ((List.Perm.cons y ih).trans (List.Perm.swap x y l))
    · exact List.Perm.refl _

theorem insertFold_perm (less : Snippet → Snippet → Bool) (l acc : List Snippet) :
    (l.foldl (fun sortedRev x => insertLeft less x sortedRev) acc).Perm (l ++ acc) := by
  induction l generalizing acc with
  | nil => exact List.Perm.refl _
  | cons x l ih =>
    rw [List.foldl_cons]
    refine (ih _).trans ?_
    refine (List.Perm.append_left l (insertLeft_perm less x acc)).trans ?_
    rw [List.cons_append]
    exact List.perm_middle

theorem insertionSortSlice_perm (less : Snippet → Snippet → Bool) (l : List Snippet) :
    (insertionSortSlice less l).Perm l := by
  unfold insertionSortSlice
  refine (List.reverse_perm _).trans ?_
  have h := insertFold_perm less l []
  rwa [List.append_nil] at h

/-- C3: in the list `LoadSnippets` stores, a snippet whose `Name` occurs more than once among
the names of the list has `DisplayName = Name + filepath.Ext(Path)`, and any other snippet
has `DisplayName = Name`; `resolveDuplicateNames` keeps the length of the list and, position
by position, the `Name`, `Content` and `Path` of every snippet. -/
theorem LoadSnippets_displayNames (unicodeLower : GoString → GoString)
    (sortSlice : (Snippet → Snippet → Bool) → List Snippet → List Snippet)
    (hsort : ∀ (less : Snippet → Snippet → Bool) (l : List Snippet), (sortSlice less l).Perm l)
    (snippetsDir : GoString) (walk : List DirEntry) (loaded : List Snippet)
    (h : LoadSnippets unicodeLower sortSlice snippetsDir walk = some loaded) :
    (∀ s ∈ loaded,
        s.DisplayName =
          if 1 < (loaded.map Snippet.Name).count s.Name then s.Name ++ Ext s.Path
          else s.Name) ∧
      ∀ l : List Snippet,
        (resolveDuplicateNames l).length = l.length ∧
          (resolveDuplicateNames l).map Snippet.Name = l.map Snippet.Name ∧
          (resolveDuplicateNames l).map Snippet.Content = l.map Snippet.Content ∧
          (resolveDuplicateNames l).map Snippet.Path = l.map Snippet.Path := by
  refine ⟨?_, resolveDuplicateNames_fields⟩
  unfold LoadSnippets at h
  split_ifs at h with hdir
  · rw [← Option.some.inj h]
    intro s hs
    exact absurd hs (List.not_mem_nil s)
  · cases hw : walkSnippets walk [] with
    | none => rw [hw] at h; exact Option.noConfusion h
    | some built =>
      rw [hw] at h
      have hl := Option.some.inj h
      have hnames := (resolveDuplicateNames_fields
        (sortSlice (nameLess unicodeLower) built)).2.1
      rw [hl] at hnames
      rw [resolveDuplicateNames_eq_map] at hl
      intro s hs
      rw [← hl] at hs
      obtain ⟨s0, hs0, hs0s⟩ := List.mem_map.mp hs
      have hd : s0.DisplayName = s0.Name :=
        walkSnippets_displayName walk [] built hw (fun _ hx => absurd hx (List.not_mem_nil _))
          s0 ((hsort _ built).mem_iff.mp hs0)
      rw [hnames, ← hs0s]
      unfold rename
      by_cases hc : 1 < (List.map Snippet.Name (sortSlice (nameLess unicodeLower) built)).count
          s0.Name
      · rw [if_pos hc, if_pos hc]
      · rw [if_neg hc, if_neg hc, hd]

theorem LoadSnippets_displayNames_witness :
    (∀ (less : Snippet → Snippet → Bool) (l : List Snippet),
        (insertionSortSlice less l).Perm l) ∧
      ∃ loaded : List Snippet,
        LoadSnippets id insertionSortSlice (lit "/d")
            [file "a.md", file "a.txt", file "b.txt"] = some loaded ∧
          loaded.map Snippet.Path = [lit "/d/a.md", lit "/d/a.txt", lit "/d/b.txt"] ∧
          loaded.map Snippet.Name = [lit "a", lit "a", lit "b"] ∧
          loaded.map Snippet.DisplayName = [lit "a.md", lit "a.txt", lit "b"] ∧
          ∀ s ∈ loaded,
            s.DisplayName =
              if 1 < (loaded.map Snippet.Name).count s.Name then s.Name ++ Ext s.Path
              else s.Name := by
  refine ⟨insertionSortSlice_perm, ?_⟩
  have hsome : (LoadSnippets id insertionSortSlice (lit "/d")
      [file "a.md", file "a.txt", file "b.txt"]).isSome = true := by decide
  obtain ⟨loaded, hl⟩ := Option.isSome_iff_exists.mp hsome
  have hp : (LoadSnippets id insertionSortSlice (lit "/d")
      [file "a.md", file "a.txt", file "b.txt"]).map (List.map Snippet.Path) =
      some [lit "/d/a.md", lit "/d/a.txt", lit "/d/b.txt"] := by decide
  have hn : (LoadSnippets id insertionSortSlice (lit "/d")
      [file "a.md", file "a.txt", file "b.txt"]).map (List.map Snippet.Name) =
      some [lit "a", lit "a", lit "b"] := by decide
  have hd : (LoadSnippets id insertionSortSlice (lit "/d")
      [file "a.md", file "a.txt", file "b.txt"]).map (List.map Snippet.DisplayName) =
      some [lit "a.md", lit "a.txt", lit "b"] := by decide
  rw [hl] at hp hn hd
  exact ⟨loaded, hl, Option.some.inj hp, Option.some.inj hn, Option.some.inj hd,
    (LoadSnippets_displayNames id insertionSortSlice insertionSortSlice_perm (lit "/d")
      [file "a.md", file "a.txt", file "b.txt"] loaded hl).1⟩

/-- C4 (what the code does): the flat directory `/d` holding the three non-hidden files
`a.md`, `a.txt` and `a.txt.bak`, whose names are pairwise distinct, loads without error into
three snippets whose display names are not pairwise distinct, whatever order `sort.Slice`
leaves them in: `a.txt` is renamed to `a.txt`, which is also the unique name of
`a.txt.bak`. -/
theorem LoadSnippets_clash (unicodeLower : GoString → GoString)
    (sortSlice : (Snippet → Snippet → Bool) → List Snippet → List Snippet)
    (hsort : ∀ (less : Snippet → Snippet → Bool) (l : List Snippet), (sortSlice less l).Perm l) :
    ([file "a.md", file "a.txt", file "a.txt.bak"].map DirEntry.name).Nodup ∧
      ([file "a.md", file "a.txt", file "a.txt.bak"].all
        (fun d => !HasPrefix d.name (lit ".") && !d.isDir)) = true ∧
      ∃ loaded : List Snippet,
        LoadSnippets unicodeLower sortSlice (lit "/d")
            [file "a.md", file "a.txt", file "a.txt.bak"] = some loaded ∧
          loaded.length = 3 ∧
          (loaded.map Snippet.DisplayName).Perm [lit "a.md", lit "a.txt", lit "a.txt"] ∧
          ¬ (loaded.map Snippet.DisplayName).Nodup := by
  refine ⟨by decide, by decide, ?_⟩
  obtain ⟨built, hw, hb⟩ : ∃ built : List Snippet,
      walkSnippets [file "a.md", file "a.txt", file "a.txt.bak"] [] = some built ∧
        built.length = 3 ∧
        (resolveDuplicateNames built).map Snippet.DisplayName =
          [lit "a.md", lit "a.txt", lit "a.txt"] :=
    ⟨_, rfl, by decide, by decide⟩
  have hload : LoadSnippets unicodeLower sortSlice (lit "/d")
      [file "a.md", file "a.txt", file "a.txt.bak"] =
      some (resolveDuplicateNames (sortSlice (nameLess unicodeLower) built)) := by
    unfold LoadSnippets
    rw [if_neg (by decide), hw]
  have hperm := resolveDuplicateNames_perm _ built (hsort (nameLess unicodeLower) built)
  rw [hb.2] at hperm
  refine ⟨_, hload, ?_, hperm, ?_⟩
  · rw [(resolveDuplicateNames_fields _).1, (hsort (nameLess unicodeLower) built).length_eq]
    exact hb.1
  · rw [hperm.nodup_iff]
    decide

theorem LoadSnippets_clash_witness :
    (∀ (less : Snippet → Snippet → Bool) (l : List Snippet),
        (insertionSortSlice less l).Perm l) ∧
      ∃ loaded : List Snippet,
        LoadSnippets id insertionSortSlice (lit "/d")
            [file "a.md", file "a.txt", file "a.txt.bak"] = some loaded ∧
          loaded.map Snippet.Path = [lit "/d/a.md", lit "/d/a.txt", lit "/d/a.txt.bak"] ∧
          loaded.map Snippet.DisplayName = [lit "a.md", lit "a.txt", lit "a.txt"] ∧
          ¬ (loaded.map Snippet.DisplayName).Nodup := by
  refine ⟨insertionSortSlice_perm, ?_⟩
  obtain ⟨_, _, loaded, hl, _, _, hnd⟩ :=
    LoadSnippets_clash id insertionSortSlice insertionSortSlice_perm
  have hp : (LoadSnippets id insertionSortSlice (lit "/d")
      [file "a.md", file "a.txt", file "a.txt.bak"]).map (List.map Snippet.Path) =
      some [lit "/d/a.md", lit "/d/a.txt", lit "/d/a.txt.bak"] := by decide
  have hd : (LoadSnippets id insertionSortSlice (lit "/d")
      [file "a.md", file "a.txt", file "a.txt.bak"]).map (List.map Snippet.DisplayName) =
      some [lit "a.md", lit "a.txt", lit "a.txt"] := by decide
  rw [hl] at hp hd
  exact ⟨loaded, hl, Option.some.inj hp, Option.some.inj hd, hnd⟩

theorem visibleOf_congr (unicodeLower : GoString → GoString) (a b : UI)
    (hf : a.filterText = b.filterText) (hs : a.allSnippets = b.allSnippets) :
    visibleOf unicodeLower a = visibleOf unicodeLower b := by
  unfold visibleOf
  rw [hf, hs]

theorem handleBackspace_of_append (unicodeLower : GoString → GoString) (ui : UI)
    (t : GoString) (c : Nat) (h : ui.filterText = t ++ [c]) :
    handleBackspace unicodeLower ui = applyFilter unicodeLower { ui with filterText := t } := by
  unfold handleBackspace
  have hlen : ui.filterText.length > 0 := by rw [h]; simp
  have htake : ui.filterText.take (ui.filterText.length - 1) = t := by rw [h]; simp
  rw [if_pos hlen]
  dsimp only
  rw [htake]

/-- For a rune whose encoding is one byte, `handleBackspace` undoes `addToFilter`: the text
is the old text and the visible list is the one the old text selects. On an empty text
`handleBackspace` returns its state. -/
theorem handleBackspace_addToFilter_ascii (unicodeLower : GoString → GoString) (ui : UI)
    (r : Int) (h0 : 0 ≤ r) (h1 : r < 128) :
    (handleBackspace unicodeLower (addToFilter unicodeLower ui r)).filterText = ui.filterText ∧
      (handleBackspace unicodeLower (addToFilter unicodeLower ui r)).currentSnippets =
        visibleOf unicodeLower ui ∧
      (ui.filterText = [] → handleBackspace unicodeLower ui = ui) := by
  have hr : runeToString r = [r.toNat] := by
    unfold runeToString
    dsimp only
    rw [if_neg (by omega), if_pos (by omega)]
  have hft : (addToFilter unicodeLower ui r).filterText = ui.filterText ++ [r.toNat] := by
    unfold addToFilter
    rw [(applyFilter_fields unicodeLower _).2.1, hr]
  rw [handleBackspace_of_append unicodeLower _ ui.filterText r.toNat hft]
  refine ⟨(applyFilter_fields unicodeLower _).2.1, ?_, ?_⟩
  · rw [applyFilter_eq]
    apply visibleOf_congr
    · rfl
    · show (addToFilter unicodeLower ui r).allSnippets = ui.allSnippets
      unfold addToFilter
      rw [(applyFilter_fields unicodeLower _).2.2.1]
  · intro he
    unfold handleBackspace
    rw [if_neg (by rw [he]; simp)]

/-- C7 (what the code does): typing the rune U+00E9, whose encoding is the two bytes
0xC3 0xA9, and then pressing Backspace does not give back the filter text `t`: the slice
`filterText[:len(filterText)-1]` drops one byte, the text becomes `t` followed by the byte
0xC3, and the visible list is filtered by that text. Started from the empty text over the
one snippet `apple`, the text ends as the byte 0xC3 and the visible list is empty. -/
theorem handleBackspace_multibyte (unicodeLower : GoString → GoString) (ui : UI) :
    runeToString 233 = [195, 169] ∧
      (addToFilter unicodeLower ui 233).filterText = ui.filterText ++ [195, 169] ∧
      (handleBackspace unicodeLower (addToFilter unicodeLower ui 233)).filterText =
        ui.filterText ++ [195] ∧
      (handleBackspace unicodeLower (addToFilter unicodeLower ui 233)).filterText ≠
        ui.filterText ∧
      (handleBackspace unicodeLower (addToFilter unicodeLower ui 233)).currentSnippets =
        ui.allSnippets.filter
          (matchesFilter unicodeLower (ToLower unicodeLower (ui.filterText ++ [195]))) ∧
      (filtering [plain "apple"] "").filterText = [] ∧
      (filtering [plain "apple"] "").currentSnippets = [plain "apple"] ∧
      (handleBackspace lowerSample
        (addToFilter lowerSample (filtering [plain "apple"] "") 233)).filterText = [195] ∧
      (handleBackspace lowerSample
        (addToFilter lowerSample (filtering [plain "apple"] "") 233)).currentSnippets = [] := by
  have hr : runeToString 233 = [195, 169] := by decide
  have hft : (addToFilter unicodeLower ui 233).filterText = (ui.filterText ++ [195]) ++ [169] := by
    unfold addToFilter
    rw [(applyFilter_fields unicodeLower _).2.1, hr]
    simp
  have hb := handleBackspace_of_append unicodeLower _ (ui.filterText ++ [195]) 169 hft
  have hall : (addToFilter unicodeLower ui 233).allSnippets = ui.allSnippets := by
    unfold addToFilter
    rw [(applyFilter_fields unicodeLower _).2.2.1]
  refine ⟨hr, ?_, ?_, ?_, ?_, by decide, by decide, by decide, by decide⟩
  · rw [hft]; simp
  · rw [hb, (applyFilter_fields unicodeLower _).2.1]
  · rw [hb, (applyFilter_fields unicodeLower _).2.1]
    intro e
    have := congrArg List.length e
    simp at this
  · rw [hb, applyFilter_eq]
    show visibleOf unicodeLower _ = _
    unfold visibleOf
    rw [if_neg (by simp)]
    show List.filter _ (addToFilter unicodeLower ui 233).allSnippets = _
    rw [hall]
end Snape
